import Mathlib

/-!
Shallow embedding of the offline-first synchronization subsystem of the
webapp-finanza repository (the `SyncManager` of js/sync-manager.js and the
sync-queue helpers of the `DatabaseManager` in js/db.js), together with
proofs about the behaviour of the embedded code.

Stateful methods are embedded as pure functions threading an explicit
`SMState` (the `SyncManager` instance fields) and `DBState` (the
IndexedDB-backed queue) and returning, besides the result, the observable
network effects (number of GET requests, list of PUT payloads).
-/

namespace FinSync

/-- A record inside one of the mergeable collections.  In the source these
are plain JS objects; the fields relevant to the sync logic are the merge
keys (`id`, `desc`) and the last-write-wins `timestamp`; every remaining
field is abstracted into `extra`. -/
structure Rec where
  id : Int
  desc : String
  timestamp : Int
  extra : String
  deriving DecidableEq, Repr

/-- The `_meta` block of a snapshot: `lastSync` (ISO timestamp written by
`saveToCloud`; `none` models an absent field), `version`, `device`. -/
structure MetaBlock where
  lastSync : Option String
  version : String
  device : String
  deriving DecidableEq, Repr

/-- The application snapshot exchanged with the remote store (the `data`
argument of the `SyncManager` methods): the three mergeable collections,
the scalar `currentBalance` and the `_meta` block.  `none` models an
absent (`undefined`) property. -/
structure Snapshot where
  manualTransactions : Option (List Rec)
  activeLoans : Option (List Rec)
  futureIncomes : Option (List Rec)
  currentBalance : Option Int
  meta : Option MetaBlock
  deriving DecidableEq, Repr

/-! ### Serialization (`JSON.stringify`) and the rolling hash (`hashData`) -/

/-- JSON string escaping for quote and backslash (control characters are
left as-is; no proved property depends on the exact serialized text). -/
def escChar (c : Char) : String :=
  if c = '\\' then "\\\\" else if c = '\"' then "\\\"" else String.singleton c

def escape (s : String) : String := String.join (s.data.map escChar)

def jsonStr (s : String) : String := "\"" ++ escape s ++ "\""

def recJson (r : Rec) : String :=
  "\x7b\"id\":" ++ toString r.id ++ ",\"desc\":" ++ jsonStr r.desc ++
    ",\"timestamp\":" ++ toString r.timestamp ++ ",\"extra\":" ++ jsonStr r.extra ++ "\x7d"

def listJson (l : List Rec) : String :=
  "[" ++ String.intercalate "," (l.map recJson) ++ "]"

def metaJson (m : MetaBlock) : String :=
  "\x7b" ++
    (match m.lastSync with
     | some t => "\"lastSync\":" ++ jsonStr t ++ ","
     | none => "") ++
    "\"version\":" ++ jsonStr m.version ++ ",\"device\":" ++ jsonStr m.device ++ "\x7d"

/-- `JSON.stringify` on a snapshot: keys in property order, properties
whose value is `undefined` omitted. -/
def serialize (s : Snapshot) : String :=
  let fields : List String :=
    (match s.manualTransactions with
     | some l => ["\"manualTransactions\":" ++ listJson l]
     | none => []) ++
    (match s.activeLoans with
     | some l => ["\"activeLoans\":" ++ listJson l]
     | none => []) ++
    (match s.futureIncomes with
     | some l => ["\"futureIncomes\":" ++ listJson l]
     | none => []) ++
    (match s.currentBalance with
     | some b => ["\"currentBalance\":" ++ toString b]
     | none => []) ++
    (match s.meta with
     | some m => ["\"_meta\":" ++ metaJson m]
     | none => [])
  "\x7b" ++ String.intercalate "," fields ++ "\x7d"

/-- The `ToInt32` conversion performed by the bitwise step `hash = hash & hash`
(and by `<< 5` internally): reduce an integer into the signed 32-bit range. -/
def toInt32 (x : Int) : Int := (x + 2147483648) % 4294967296 - 2147483648

/-- One step of the rolling hash of `hashData`:
`hash = ((hash << 5) - hash) + char; hash = hash & hash`.
`hash << 5` truncates `hash * 32` to 32 bits; the subtraction and the
addition of the char code are exact, and the final `& hash` truncates. -/
def hashStep (h : Int) (c : Nat) : Int := toInt32 (toInt32 (h * 32) - h + (c : Int))

/-- UTF-16 code units of a character (`charCodeAt` enumerates these). -/
def utf16Units (c : Char) : List Nat :=
  if c.toNat < 65536 then [c.toNat]
  else
    let v := c.toNat - 65536
    [55296 + v / 1024, 56320 + v % 1024]

def stringUnits (s : String) : List Nat := (s.data.map utf16Units).flatten

/-- The integer value accumulated by `hashData` before `toString`. -/
def hashString (s : String) : Int := (stringUnits s).foldl hashStep 0

def hashInt (d : Snapshot) : Int := hashString (serialize d)

/-- `SyncManager.hashData`: rolling 32-bit hash of `JSON.stringify(data)`,
returned as its decimal string (`hash.toString()`). -/
def hashData (d : Snapshot) : String := toString (hashInt d)

/-- Field-by-field structural copy of a record (what `JSON.parse ∘
JSON.stringify` produces for a record). -/
def copyRec (r : Rec) : Rec :=
  { id := r.id, desc := r.desc, timestamp := r.timestamp, extra := r.extra }

def copyMeta (m : MetaBlock) : MetaBlock :=
  { lastSync := m.lastSync, version := m.version, device := m.device }

/-- A structural deep copy of a snapshot. -/
def deepCopy (s : Snapshot) : Snapshot :=
  { manualTransactions := s.manualTransactions.map (List.map copyRec)
  , activeLoans := s.activeLoans.map (List.map copyRec)
  , futureIncomes := s.futureIncomes.map (List.map copyRec)
  , currentBalance := s.currentBalance
  , meta := s.meta.map copyMeta }

lemma deepCopy_eq (s : Snapshot) : deepCopy s = s := by
  have hr : copyRec = id := funext fun r => rfl
  have hm : copyMeta = id := funext fun m => rfl
  cases s
  simp [deepCopy, hr, hm]

lemma toInt32_range (x : Int) : -2147483648 ≤ toInt32 x ∧ toInt32 x < 2147483648 := by
  unfold toInt32
  omega

lemma hashStep_range (h : Int) (c : Nat) :
    -2147483648 ≤ hashStep h c ∧ hashStep h c < 2147483648 :=
  toInt32_range _

lemma foldl_hashStep_range (l : List Nat) (h : Int)
    (hh : -2147483648 ≤ h ∧ h < 2147483648) :
    -2147483648 ≤ l.foldl hashStep h ∧ l.foldl hashStep h < 2147483648 := by
  induction l generalizing h with
  | nil => exact hh
  | cons c t ih => exact ih _ (hashStep_range h c)

lemma hashString_range (s : String) :
    -2147483648 ≤ hashString s ∧ hashString s < 2147483648 :=
  foldl_hashStep_range _ 0 (by omega)

lemma hashStep_eq_mod31 (h : Int) (c : Nat) :
    hashStep h c = toInt32 (h * 31 + (c : Int)) := by
  unfold hashStep toInt32
  omega

/-- A small concrete snapshot used by witnesses (kept small so that the
kernel can evaluate its serialization and hash). -/
def sampleSnap : Snapshot :=
  { manualTransactions := some [{ id := 1, desc := "", timestamp := 5, extra := "a" }]
  , activeLoans := none
  , futureIncomes := none
  , currentBalance := none
  , meta := none }

/-- C7: the fingerprint is a deterministic function of the serialized form,
folding `hash * 31 + charCode` with signed 32-bit truncation at each step:
snapshots that serialize identically yield equal fingerprints, a snapshot
and its deep copy yield equal fingerprints, the accumulated integer always
lies in the signed 32-bit range, and each fold step equals
`toInt32 (hash * 31 + charCode)`. -/
theorem C7_fingerprint :
    (∀ a b : Snapshot, serialize a = serialize b → hashData a = hashData b)
    ∧ (∀ s : Snapshot, hashData (deepCopy s) = hashData s)
    ∧ (∀ s : Snapshot, -2147483648 ≤ hashInt s ∧ hashInt s < 2147483648)
    ∧ (∀ (h : Int) (c : Nat), hashStep h c = toInt32 (h * 31 + (c : Int))) := by
  refine ⟨?_, ?_, ?_, ?_⟩
  · intro a b hab
    unfold hashData hashInt
    rw [hab]
  · intro s
    rw [deepCopy_eq]
  · intro s
    exact hashString_range _
  · exact hashStep_eq_mod31

/-- Witness for C7 at a concrete snapshot: the serialize-equality hypothesis
is discharged by evaluation on `sampleSnap` and its deep copy. -/
theorem C7_fingerprint_witness : hashData sampleSnap = hashData (deepCopy sampleSnap) :=
  C7_fingerprint.1 sampleSnap (deepCopy sampleSnap) rfl

/-! ### `mergeArrays` / `mergeData`

`mergeArrays(arr1, arr2, key)` builds a JS `Map` by iterating
`[...arr1, ...arr2]` and setting `map[item[key]] = item` whenever the key
is new or the item's `timestamp` is strictly larger than the stored one;
the result is `Array.from(map.values())`.  The `Map` is embedded as an
insertion-ordered association list: `Map.set` updates an existing key in
place (keeping its position) and appends a new key at the end. -/

variable {K : Type} [DecidableEq K]

def mapSet : List (K × Rec) → K → Rec → List (K × Rec)
  | [], k, v => [(k, v)]
  | p :: rest, k, v =>
      if p.1 = k then (k, v) :: rest else p :: mapSet rest k v

def mapGet (m : List (K × Rec)) (k : K) : Option Rec :=
  (m.find? (fun p => decide (p.1 = k))).map Prod.snd

/-- One iteration of the `forEach` in `mergeArrays`. -/
def mergeStep (key : Rec → K) (m : List (K × Rec)) (item : Rec) : List (K × Rec) :=
  let k := key item
  match mapGet m k with
  | none => mapSet m k item
  | some existing =>
      if existing.timestamp < item.timestamp then mapSet m k item else m

/-- `SyncManager.mergeArrays`. -/
def mergeArrays (arr1 arr2 : List Rec) (key : Rec → K) : List Rec :=
  (((arr1 ++ arr2).foldl (mergeStep key) []).map Prod.snd)

/-- Per-key effect of one `forEach` iteration, seen through `mapGet`. -/
def pickLater (acc : Option Rec) (item : Rec) : Option Rec :=
  match acc with
  | none => some item
  | some w => if w.timestamp < item.timestamp then some item else some w

lemma mapGet_mapSet (m : List (K × Rec)) (k k' : K) (v : Rec) :
    mapGet (mapSet m k v) k' = if k = k' then some v else mapGet m k' := by
  induction m with
  | nil =>
    by_cases h : k = k' <;> simp [mapSet, mapGet, List.find?, h]
  | cons p rest ih =>
    by_cases hp : p.1 = k
    · by_cases h : k = k' <;>
        simp [mapSet, mapGet, List.find?, hp, h, hp ▸ h]
    · by_cases h : k = k'
      · subst h
        simp only [mapSet, if_neg hp]
        simpa [mapGet, List.find?, hp] using ih
      · simp only [mapSet, if_neg hp]
        by_cases hq : p.1 = k'
        · simp [mapGet, List.find?, hq, h]
        · simpa [mapGet, List.find?, hq, h] using ih

lemma mergeStep_get (key : Rec → K) (m : List (K × Rec)) (i : Rec) (k : K) :
    mapGet (mergeStep key m i) k =
      if key i = k then pickLater (mapGet m k) i else mapGet m k := by
  cases hg : mapGet m (key i) with
  | none =>
    simp only [mergeStep, hg]
    rw [mapGet_mapSet]
    by_cases h : key i = k
    · subst h
      simp [pickLater, hg]
    · simp [h]
  | some existing =>
    by_cases ht : existing.timestamp < i.timestamp
    · simp only [mergeStep, hg, if_pos ht]
      rw [mapGet_mapSet]
      by_cases h : key i = k
      · subst h
        simp [pickLater, hg, ht]
      · simp [h]
    · simp only [mergeStep, hg, if_neg ht]
      by_cases h : key i = k
      · subst h
        simp [pickLater, hg, ht]
      · simp [h]

lemma foldl_mergeStep_get (key : Rec → K) (items : List Rec) (m : List (K × Rec)) (k : K) :
    mapGet (items.foldl (mergeStep key) m) k =
      (items.filter (fun i => decide (key i = k))).foldl pickLater (mapGet m k) := by
  induction items generalizing m with
  | nil => rfl
  | cons i t ih =>
    by_cases h : key i = k
    · simp [List.filter_cons, h, ih, mergeStep_get]
    · simp [List.filter_cons, h, ih, mergeStep_get]

lemma mem_keys_mapSet (m : List (K × Rec)) (k k' : K) (v : Rec) :
    k' ∈ (mapSet m k v).map Prod.fst ↔ k' ∈ m.map Prod.fst ∨ k' = k := by
  induction m with
  | nil => simp [mapSet]
  | cons p rest ih =>
    by_cases hp : p.1 = k
    · subst hp
      by_cases h : k' = p.1 <;> simp [mapSet, h, ih]
    · simp only [mapSet, if_neg hp, List.map_cons, List.mem_cons, ih]
      tauto

lemma nodup_keys_mapSet (m : List (K × Rec)) (k : K) (v : Rec)
    (h : (m.map Prod.fst).Nodup) : ((mapSet m k v).map Prod.fst).Nodup := by
  induction m with
  | nil => simp [mapSet]
  | cons p rest ih =>
    simp only [List.map_cons, List.nodup_cons] at h
    by_cases hp : p.1 = k
    · subst hp
      simpa [mapSet] using h
    · simp only [mapSet, if_neg hp, List.map_cons, List.nodup_cons]
      refine ⟨?_, ih h.2⟩
      rw [mem_keys_mapSet]
      rintro (hmem | rfl)
      · exact h.1 hmem
      · exact hp rfl

lemma nodup_keys_mergeStep (key : Rec → K) (m : List (K × Rec)) (i : Rec)
    (h : (m.map Prod.fst).Nodup) : ((mergeStep key m i).map Prod.fst).Nodup := by
  cases hg : mapGet m (key i) with
  | none =>
    simp only [mergeStep, hg]
    exact nodup_keys_mapSet _ _ _ h
  | some existing =>
    by_cases ht : existing.timestamp < i.timestamp
    · simp only [mergeStep, hg, if_pos ht]
      exact nodup_keys_mapSet _ _ _ h
    · simpa only [mergeStep, hg, if_neg ht] using h

lemma nodup_keys_foldl (key : Rec → K) (items : List Rec) (m : List (K × Rec))
    (h : (m.map Prod.fst).Nodup) :
    ((items.foldl (mergeStep key) m).map Prod.fst).Nodup := by
  induction items generalizing m with
  | nil => exact h
  | cons i t ih => exact ih _ (nodup_keys_mergeStep key m i h)

lemma pair_key_mapSet (key : Rec → K) (m : List (K × Rec)) (k : K) (v : Rec)
    (hm : ∀ p ∈ m, key p.2 = p.1) (hv : key v = k) :
    ∀ p ∈ mapSet m k v, key p.2 = p.1 := by
  induction m with
  | nil =>
    intro p hp
    simp only [mapSet, List.mem_singleton] at hp
    subst hp
    exact hv
  | cons q rest ih =>
    intro p hp
    by_cases hq : q.1 = k
    · simp only [mapSet, if_pos hq, List.mem_cons] at hp
      rcases hp with rfl | hp
      · exact hv
      · exact hm p (List.mem_cons_of_mem _ hp)
    · simp only [mapSet, if_neg hq, List.mem_cons] at hp
      rcases hp with rfl | hp
      · exact hm p (List.mem_cons_self _ _)
      · exact ih (fun r hr => hm r (List.mem_cons_of_mem _ hr)) p hp

lemma pair_key_mergeStep (key : Rec → K) (m : List (K × Rec)) (i : Rec)
    (hm : ∀ p ∈ m, key p.2 = p.1) :
    ∀ p ∈ mergeStep key m i, key p.2 = p.1 := by
  cases hg : mapGet m (key i) with
  | none =>
    simp only [mergeStep, hg]
    exact pair_key_mapSet key m _ i hm rfl
  | some existing =>
    by_cases ht : existing.timestamp < i.timestamp
    · simp only [mergeStep, hg, if_pos ht]
      exact pair_key_mapSet key m _ i hm rfl
    · simpa only [mergeStep, hg, if_neg ht] using hm

lemma pair_key_foldl (key : Rec → K) (items : List Rec) (m : List (K × Rec))
    (hm : ∀ p ∈ m, key p.2 = p.1) :
    ∀ p ∈ items.foldl (mergeStep key) m, key p.2 = p.1 := by
  induction items generalizing m with
  | nil => exact hm
  | cons i t ih => exact ih _ (pair_key_mergeStep key m i hm)

lemma mapGet_eq_some_of_mem (m : List (K × Rec)) (k : K) (v : Rec)
    (hnd : (m.map Prod.fst).Nodup) (hmem : (k, v) ∈ m) :
    mapGet m k = some v := by
  induction m with
  | nil => cases hmem
  | cons p rest ih =>
    simp only [List.map_cons, List.nodup_cons] at hnd
    rcases List.mem_cons.mp hmem with rfl | hmem
    · simp [mapGet, List.find?]
    · have hne : p.1 ≠ k := by
        intro h
        exact hnd.1 (h ▸ (List.mem_map.mpr ⟨(k, v), hmem, rfl⟩))
      simpa [mapGet, List.find?, hne] using ih hnd.2 hmem

lemma mem_of_mapGet_eq_some (m : List (K × Rec)) (k : K) (v : Rec)
    (h : mapGet m k = some v) : (k, v) ∈ m := by
  unfold mapGet at h
  cases hf : m.find? (fun p => decide (p.1 = k)) with
  | none => rw [hf] at h; cases h
  | some p =>
    rw [hf] at h
    have hp := List.find?_some hf
    have hmem := List.mem_of_find?_eq_some hf
    simp only [decide_eq_true_eq] at hp
    simp only [Option.map_some'] at h
    have : p = (k, v) := by
      cases p
      simp_all
    exact this ▸ hmem

lemma mapGet_isSome_iff_mem_keys (m : List (K × Rec)) (k : K) :
    (mapGet m k).isSome = true ↔ k ∈ m.map Prod.fst := by
  induction m with
  | nil => simp [mapGet, List.find?]
  | cons p rest ih =>
    by_cases hp : p.1 = k
    · simp [mapGet, List.find?, hp]
    · rw [show mapGet (p :: rest) k = mapGet rest k by simp [mapGet, List.find?, hp],
        List.map_cons, List.mem_cons, ih]
      have : ¬ k = p.1 := fun hk => hp hk.symm
      tauto

lemma pickLater_isSome (acc : Option Rec) (i : Rec) : (pickLater acc i).isSome = true := by
  cases acc with
  | none => rfl
  | some w =>
    simp only [pickLater]
    by_cases ht : w.timestamp < i.timestamp
    · rw [if_pos ht]; rfl
    · rw [if_neg ht]; rfl

lemma foldl_pickLater_isSome_of_isSome (l : List Rec) (acc : Option Rec)
    (h : acc.isSome = true) : (l.foldl pickLater acc).isSome = true := by
  induction l generalizing acc with
  | nil => exact h
  | cons i t ih => exact ih _ (pickLater_isSome acc i)

lemma foldl_pickLater_none_iff (l : List Rec) :
    (l.foldl pickLater none).isSome = true ↔ l ≠ [] := by
  cases l with
  | nil => simp
  | cons i t =>
    refine ⟨fun _ => by simp, fun _ => ?_⟩
    exact foldl_pickLater_isSome_of_isSome t _ (pickLater_isSome none i)

/-- With duplicate-free keys on one side, the filter of that side at a key
it contains is the singleton of its unique item with that key. -/
lemma filter_eq_singleton (key : Rec → K) (l : List Rec) (x : Rec)
    (hnd : (l.map key).Nodup) (hx : x ∈ l) :
    l.filter (fun i => decide (key i = key x)) = [x] := by
  induction l with
  | nil => cases hx
  | cons a t ih =>
    simp only [List.map_cons, List.nodup_cons] at hnd
    by_cases hax : a = x
    · subst hax
      have ht : t.filter (fun i => decide (key i = key a)) = [] := by
        apply List.filter_eq_nil_iff.mpr
        intro b hb
        simp only [decide_eq_true_eq]
        intro hkb
        exact hnd.1 (hkb ▸ List.mem_map.mpr ⟨b, hb, rfl⟩)
      simp [List.filter_cons, ht]
    · have hx' : x ∈ t := by
        rcases List.mem_cons.mp hx with h | h
        · exact absurd h.symm hax
        · exact h
      have hne : key a ≠ key x := by
        intro h
        exact hnd.1 (h ▸ List.mem_map.mpr ⟨x, hx', rfl⟩)
      simp [List.filter_cons, hne, ih hnd.2 hx']

/-- Membership in the merged list in terms of the final map. -/
lemma mem_mergeArrays_iff (arr1 arr2 : List Rec) (key : Rec → K) (v : Rec) :
    v ∈ mergeArrays arr1 arr2 key ↔
      mapGet ((arr1 ++ arr2).foldl (mergeStep key) []) (key v) = some v := by
  unfold mergeArrays
  constructor
  · intro hv
    rcases List.mem_map.mp hv with ⟨p, hp, rfl⟩
    have hk : key p.2 = p.1 := pair_key_foldl key _ [] (by simp) p hp
    have hnd : (((arr1 ++ arr2).foldl (mergeStep key) []).map Prod.fst).Nodup :=
      nodup_keys_foldl key _ [] (by simp)
    rw [hk]
    exact mapGet_eq_some_of_mem _ _ _ hnd (by cases p; simpa using hp)
  · intro hg
    exact List.mem_map.mpr ⟨(key v, v), mem_of_mapGet_eq_some _ _ _ hg, rfl⟩

/-- The keys of the merged list are exactly the union of the two sides'
keys, with no duplicates. -/
lemma mergeArrays_keys (arr1 arr2 : List Rec) (key : Rec → K) :
    ((mergeArrays arr1 arr2 key).map key).Nodup
    ∧ ∀ k, k ∈ (mergeArrays arr1 arr2 key).map key ↔
        (k ∈ arr1.map key ∨ k ∈ arr2.map key) := by
  have hnd : (((arr1 ++ arr2).foldl (mergeStep key) []).map Prod.fst).Nodup :=
    nodup_keys_foldl key _ [] (by simp)
  have hpair : ∀ p ∈ (arr1 ++ arr2).foldl (mergeStep key) [], key p.2 = p.1 :=
    pair_key_foldl key _ [] (by simp)
  have hmapeq : ((mergeArrays arr1 arr2 key).map key)
      = ((arr1 ++ arr2).foldl (mergeStep key) []).map Prod.fst := by
    unfold mergeArrays
    rw [List.map_map]
    exact List.map_congr_left fun p hp => hpair p hp
  constructor
  · rw [hmapeq]; exact hnd
  · intro k
    rw [hmapeq, ← mapGet_isSome_iff_mem_keys, foldl_mergeStep_get,
      List.filter_append]
    have hget : mapGet ([] : List (K × Rec)) k = none := rfl
    rw [hget]
    rw [List.foldl_append]
    constructor
    · intro hsome
      by_cases h1 : arr1.filter (fun i => decide (key i = k)) = []
      · rw [h1] at hsome
        simp only [List.foldl_nil] at hsome
        have h2 := (foldl_pickLater_none_iff _).mp hsome
        rcases List.exists_mem_of_ne_nil _ h2 with ⟨i, hi⟩
        have := List.of_mem_filter hi
        simp only [decide_eq_true_eq] at this
        exact Or.inr (this ▸ List.mem_map.mpr ⟨i, List.mem_of_mem_filter hi, rfl⟩)
      · rcases List.exists_mem_of_ne_nil _ h1 with ⟨i, hi⟩
        have := List.of_mem_filter hi
        simp only [decide_eq_true_eq] at this
        exact Or.inl (this ▸ List.mem_map.mpr ⟨i, List.mem_of_mem_filter hi, rfl⟩)
    · intro hk
      rcases hk with hk | hk
      · rcases List.mem_map.mp hk with ⟨i, hi, rfl⟩
        have hfi : i ∈ arr1.filter (fun j => decide (key j = key i)) :=
          List.mem_filter.mpr ⟨hi, by simp⟩
        cases hf : arr1.filter (fun j => decide (key j = key i)) with
        | nil => rw [hf] at hfi; cases hfi
        | cons a t =>
          apply foldl_pickLater_isSome_of_isSome
          simp only [List.foldl_cons]
          exact foldl_pickLater_isSome_of_isSome t _ (pickLater_isSome none a)
      · rcases List.mem_map.mp hk with ⟨i, hi, rfl⟩
        have hfi : i ∈ arr2.filter (fun j => decide (key j = key i)) :=
          List.mem_filter.mpr ⟨hi, by simp⟩
        cases hf : arr2.filter (fun j => decide (key j = key i)) with
        | nil => rw [hf] at hfi; cases hfi
        | cons a t =>
          simp only [List.foldl_cons]
          exact foldl_pickLater_isSome_of_isSome t _ (pickLater_isSome _ a)

/-- When a key occurs on both sides (each side duplicate-free for that key
field), the merged list contains exactly the later-or-first winner: the
cloud-side item when its timestamp is strictly larger, the local-side item
otherwise (ties included). -/
lemma mergeArrays_winner (arr1 arr2 : List Rec) (key : Rec → K) (x y : Rec)
    (hnd1 : (arr1.map key).Nodup) (hnd2 : (arr2.map key).Nodup)
    (hx : x ∈ arr1) (hy : y ∈ arr2) (hk : key x = key y) :
    (if x.timestamp < y.timestamp then y else x) ∈ mergeArrays arr1 arr2 key
    ∧ ∀ z ∈ mergeArrays arr1 arr2 key, key z = key x →
        z = (if x.timestamp < y.timestamp then y else x) := by
  set w : Rec := if x.timestamp < y.timestamp then y else x with hw
  have hkw : key w = key x := by
    rw [hw]
    by_cases ht : x.timestamp < y.timestamp
    · rw [if_pos ht, hk]
    · rw [if_neg ht]
  have hget : mapGet ((arr1 ++ arr2).foldl (mergeStep key) []) (key x) = some w := by
    rw [foldl_mergeStep_get, List.filter_append]
    have h1 : arr1.filter (fun i => decide (key i = key x)) = [x] :=
      filter_eq_singleton key arr1 x hnd1 hx
    have h2 : arr2.filter (fun i => decide (key i = key x)) = [y] := by
      rw [hk]
      exact filter_eq_singleton key arr2 y hnd2 hy
    have hget0 : mapGet ([] : List (K × Rec)) (key x) = none := rfl
    rw [h1, h2, hget0]
    by_cases ht : x.timestamp < y.timestamp
    · simp [pickLater, ht, hw]
    · simp [pickLater, ht, hw]
  constructor
  · rw [mem_mergeArrays_iff, hkw]
    exact hget
  · intro z hz hkz
    rw [mem_mergeArrays_iff] at hz
    rw [hkz, hget] at hz
    exact (Option.some.injEq _ _).mp hz.symm

/-- `SyncManager.mergeData`: start from a shallow copy of `cloud`, merge
`manualTransactions` and `activeLoans` by `id` and `futureIncomes` by
`desc` when the collection is present on both sides, then let a defined
`local.currentBalance` override the cloud value. -/
def mergeData (localData cloud : Snapshot) : Snapshot :=
  let m1 :=
    match localData.manualTransactions, cloud.manualTransactions with
    | some a, some b => { cloud with manualTransactions := some (mergeArrays a b Rec.id) }
    | _, _ => cloud
  let m2 :=
    match localData.activeLoans, cloud.activeLoans with
    | some a, some b => { m1 with activeLoans := some (mergeArrays a b Rec.id) }
    | _, _ => m1
  let m3 :=
    match localData.futureIncomes, cloud.futureIncomes with
    | some a, some b => { m2 with futureIncomes := some (mergeArrays a b Rec.desc) }
    | _, _ => m2
  match localData.currentBalance with
  | some bal => { m3 with currentBalance := some bal }
  | none => m3

lemma mergeData_manualTransactions (l c : Snapshot) (lt ct : List Rec)
    (hl : l.manualTransactions = some lt) (hc : c.manualTransactions = some ct) :
    (mergeData l c).manualTransactions = some (mergeArrays lt ct Rec.id) := by
  simp only [mergeData, hl, hc]
  repeat' split
  all_goals rfl

lemma mergeData_activeLoans (l c : Snapshot) (lt ct : List Rec)
    (hl : l.activeLoans = some lt) (hc : c.activeLoans = some ct) :
    (mergeData l c).activeLoans = some (mergeArrays lt ct Rec.id) := by
  simp only [mergeData, hl, hc]
  repeat' split
  all_goals rfl

lemma mergeData_futureIncomes (l c : Snapshot) (lt ct : List Rec)
    (hl : l.futureIncomes = some lt) (hc : c.futureIncomes = some ct) :
    (mergeData l c).futureIncomes = some (mergeArrays lt ct Rec.desc) := by
  simp only [mergeData, hl, hc]
  repeat' split
  all_goals rfl

lemma mergeData_currentBalance_some (l c : Snapshot) (b : Int)
    (h : l.currentBalance = some b) : (mergeData l c).currentBalance = some b := by
  simp only [mergeData, h]

lemma mergeData_currentBalance_none (l c : Snapshot)
    (h : l.currentBalance = none) : (mergeData l c).currentBalance = c.currentBalance := by
  simp only [mergeData, h]
  repeat' split
  all_goals rfl

/-- The property claimed of a merged collection: one item per key in the
union of the two sides' key sets, the strictly larger `timestamp` winning
for a key present on both sides. -/
def mergedOk {K : Type} [DecidableEq K] (key : Rec → K) (lt ct : List Rec)
    (res : Option (List Rec)) : Prop :=
  ∃ mt, res = some mt ∧ (mt.map key).Nodup
    ∧ (∀ k, k ∈ mt.map key ↔ (k ∈ lt.map key ∨ k ∈ ct.map key))
    ∧ (∀ x y, x ∈ lt → y ∈ ct → key x = key y → x.timestamp < y.timestamp → y ∈ mt)
    ∧ (∀ x y, x ∈ lt → y ∈ ct → key x = key y → y.timestamp < x.timestamp → x ∈ mt)

lemma mergeArrays_mergedOk (key : Rec → K) (a b : List Rec)
    (h1 : (a.map key).Nodup) (h2 : (b.map key).Nodup) :
    mergedOk key a b (some (mergeArrays a b key)) := by
  refine ⟨mergeArrays a b key, rfl, (mergeArrays_keys a b key).1,
    (mergeArrays_keys a b key).2, ?_, ?_⟩
  · intro x y hx hy hk ht
    have hw := mergeArrays_winner a b key x y h1 h2 hx hy hk
    rw [if_pos ht] at hw
    exact hw.1
  · intro x y hx hy hk ht
    have hw := mergeArrays_winner a b key x y h1 h2 hx hy hk
    rw [if_neg (show ¬ x.timestamp < y.timestamp by omega)] at hw
    exact hw.1

/-- C5: for a collection present in both snapshots (`manualTransactions`
and `activeLoans` keyed by `id`, `futureIncomes` keyed by `desc`), with
each side duplicate-free on the merge key, the merged collection has
exactly one item per key in the union of the two key sets, and for a key
on both sides the item with the strictly larger `timestamp` is kept. -/
theorem C5_merge_union :
    (∀ (l c : Snapshot) (lt ct : List Rec),
        l.manualTransactions = some lt → c.manualTransactions = some ct →
        (lt.map Rec.id).Nodup → (ct.map Rec.id).Nodup →
        mergedOk Rec.id lt ct ((mergeData l c).manualTransactions))
    ∧ (∀ (l c : Snapshot) (lt ct : List Rec),
        l.activeLoans = some lt → c.activeLoans = some ct →
        (lt.map Rec.id).Nodup → (ct.map Rec.id).Nodup →
        mergedOk Rec.id lt ct ((mergeData l c).activeLoans))
    ∧ (∀ (l c : Snapshot) (lt ct : List Rec),
        l.futureIncomes = some lt → c.futureIncomes = some ct →
        (lt.map Rec.desc).Nodup → (ct.map Rec.desc).Nodup →
        mergedOk Rec.desc lt ct ((mergeData l c).futureIncomes)) := by
  refine ⟨?_, ?_, ?_⟩ <;> intro l c lt ct hl hc h1 h2
  · rw [mergeData_manualTransactions l c lt ct hl hc]
    exact mergeArrays_mergedOk Rec.id lt ct h1 h2
  · rw [mergeData_activeLoans l c lt ct hl hc]
    exact mergeArrays_mergedOk Rec.id lt ct h1 h2
  · rw [mergeData_futureIncomes l c lt ct hl hc]
    exact mergeArrays_mergedOk Rec.desc lt ct h1 h2

/-- The merge-union example of the specification:
`local.transactions = [{id:1,timestamp:5},{id:2,timestamp:1}]`,
`cloud.transactions = [{id:2,timestamp:9},{id:3,timestamp:2}]`. -/
def ltEx : List Rec := [⟨1, "", 5, "l1"⟩, ⟨2, "", 1, "l2"⟩]

def ctEx : List Rec := [⟨2, "", 9, "c2"⟩, ⟨3, "", 2, "c3"⟩]

def lSnapEx : Snapshot := ⟨some ltEx, none, none, none, none⟩

def cSnapEx : Snapshot := ⟨some ctEx, none, none, none, none⟩

/-- Witness for C5 at the specification's own merge-union example. -/
theorem C5_merge_union_witness :
    mergedOk Rec.id ltEx ctEx ((mergeData lSnapEx cSnapEx).manualTransactions) :=
  C5_merge_union.1 lSnapEx cSnapEx ltEx ctEx rfl rfl (by decide) (by decide)

/-- A timestamp tie between a local and a cloud item under the same id. -/
def recL : Rec := ⟨1, "", 5, "localItem"⟩

def recC : Rec := ⟨1, "", 5, "cloudItem"⟩

def lSnapTie : Snapshot := ⟨some [recL], none, none, none, none⟩

def cSnapTie : Snapshot := ⟨some [recC], none, none, none, none⟩

/-- C3 counterexample: when local and cloud both hold an item with the same
id and equal timestamps, the merged collection keeps the LOCAL-derived
entry, not the cloud-derived one: `mergeArrays` iterates
`[...arr1, ...arr2]` with `arr1 = local`, so the local item is inserted
first, and the cloud item replaces it only on a strictly larger timestamp. -/
theorem C3_tie_counterexample :
    (mergeData lSnapTie cSnapTie).manualTransactions = some [recL] ∧ recL ≠ recC := by
  exact ⟨rfl, by decide⟩

/-- C3 amended: when local and cloud both contain an item under the same
merge key with equal timestamps, the merged collection keeps the
local-derived entry (local is iterated first; a later cloud item replaces
it only when its timestamp is strictly larger). -/
theorem C3_tie_local_wins (l c : Snapshot) (lt ct : List Rec) (x y : Rec)
    (hl : l.manualTransactions = some lt) (hc : c.manualTransactions = some ct)
    (h1 : (lt.map Rec.id).Nodup) (h2 : (ct.map Rec.id).Nodup)
    (hx : x ∈ lt) (hy : y ∈ ct) (hid : x.id = y.id)
    (hts : x.timestamp = y.timestamp) :
    ∃ mt, (mergeData l c).manualTransactions = some mt
      ∧ x ∈ mt ∧ ∀ z ∈ mt, z.id = x.id → z = x := by
  rw [mergeData_manualTransactions l c lt ct hl hc]
  have hw := mergeArrays_winner lt ct Rec.id x y h1 h2 hx hy hid
  rw [if_neg (show ¬ x.timestamp < y.timestamp by omega)] at hw
  exact ⟨_, rfl, hw.1, hw.2⟩

/-- Witness for the amended C3 at the concrete tie example. -/
theorem C3_tie_local_wins_witness :
    ∃ mt, (mergeData lSnapTie cSnapTie).manualTransactions = some mt
      ∧ recL ∈ mt ∧ ∀ z ∈ mt, z.id = recL.id → z = recL :=
  C3_tie_local_wins lSnapTie cSnapTie [recL] [recC] recL recC rfl rfl
    (by decide) (by decide) (by decide) (by decide) (by decide) (by decide)

/-- C6: the scalar `currentBalance` is not merged: a defined local value
always overrides the cloud value, and an absent local value leaves the
cloud value in place, regardless of any timestamps. -/
theorem C6_balance_override (l c : Snapshot) :
    (∀ b : Int, l.currentBalance = some b → (mergeData l c).currentBalance = some b)
    ∧ (l.currentBalance = none → (mergeData l c).currentBalance = c.currentBalance) := by
  constructor
  · intro b hb
    exact mergeData_currentBalance_some l c b hb
  · intro h
    exact mergeData_currentBalance_none l c h

/-- The specification's balance-override example: local balance 100, cloud
balance 50. -/
def lSnapBal : Snapshot := ⟨none, none, none, some 100, none⟩

def cSnapBal : Snapshot := ⟨none, none, none, some 50, none⟩

/-- Witness for C6: merging a local balance of 100 with a cloud balance of
50 yields 100. -/
theorem C6_balance_override_witness :
    (mergeData lSnapBal cSnapBal).currentBalance = some 100 :=
  (C6_balance_override lSnapBal cSnapBal).1 100 rfl

/-! ### `fetchWithRetry` -/

/-- Outcome of one underlying `fetch` attempt, indexed by attempt number:
either the transport throws, or a response with the given status code
arrives. -/
inductive FetchOutcome
  | throws (msg : String)
  | status (code : Nat)
  deriving DecidableEq, Repr

/-- Observable behaviour of one `fetchWithRetry` call: the returned
response (`.ok status`) or raised error, the backoff delays slept, and the
number of requests issued. -/
structure FetchResult where
  result : Except String Nat
  delays : List Nat
  requests : Nat
  deriving Repr

/-- `this.maxRetries` set by the `SyncManager` constructor. -/
def maxRetries : Nat := 3

/-- `this.retryDelay` (ms) set by the `SyncManager` constructor. -/
def retryDelay : Nat := 2000

/-- The recursion of `fetchWithRetry`, embedded structurally on
`remaining = maxRetries - attempt`, the number of retries still allowed:
the guard `attempt < maxRetries` holds exactly when `remaining` is
nonzero, and the recursive call at `attempt + 1` has `remaining - 1`.
A 5xx response or a thrown transport error is retried after a delay of
`retryDelay * 2 ^ (attempt - 1)`; any other response is returned as-is,
and the last response/error is returned/raised once the bound is
reached. -/
def fetchAux (oracle : Nat → FetchOutcome) (retryD : Nat) : Nat → Nat → FetchResult
  | attempt, remaining =>
    match oracle attempt with
    | .throws msg =>
        match remaining with
        | 0 => ⟨.error msg, [], 1⟩
        | r + 1 =>
            let rest := fetchAux oracle retryD (attempt + 1) r
            ⟨rest.result, retryD * 2 ^ (attempt - 1) :: rest.delays, rest.requests + 1⟩
    | .status code =>
        if 500 ≤ code then
          match remaining with
          | 0 => ⟨.ok code, [], 1⟩
          | r + 1 =>
              let rest := fetchAux oracle retryD (attempt + 1) r
              ⟨rest.result, retryD * 2 ^ (attempt - 1) :: rest.delays, rest.requests + 1⟩
        else ⟨.ok code, [], 1⟩

/-- `SyncManager.fetchWithRetry(url, options, attempt)`. -/
def fetchWithRetry (oracle : Nat → FetchOutcome) (maxR retryD attempt : Nat) : FetchResult :=
  fetchAux oracle retryD attempt (maxR - attempt)

/-- An attempt outcome triggers a retry (when below the bound) iff the
transport threw or the status is ≥ 500. -/
def retryable : FetchOutcome → Bool
  | .throws _ => true
  | .status code => decide (500 ≤ code)

/-- The result produced when an attempt outcome is not retried. -/
def finalize : FetchOutcome → Except String Nat
  | .throws msg => .error msg
  | .status code => .ok code

lemma fetch_stop (oracle : Nat → FetchOutcome) (retryD a rem : Nat)
    (h : retryable (oracle a) = false) :
    fetchAux oracle retryD a rem = ⟨finalize (oracle a), [], 1⟩ := by
  cases ho : oracle a with
  | throws msg =>
    rw [ho] at h
    exact absurd h (by simp [retryable])
  | status code =>
    have hc : ¬ 500 ≤ code := by
      rw [ho] at h
      simpa [retryable] using h
    rw [fetchAux.eq_def]
    simp only [ho]
    rw [if_neg hc]
    simp [finalize]

lemma fetch_retry (oracle : Nat → FetchOutcome) (retryD a r : Nat)
    (h : retryable (oracle a) = true) :
    fetchAux oracle retryD a (r + 1) =
      ⟨(fetchAux oracle retryD (a + 1) r).result,
        retryD * 2 ^ (a - 1) :: (fetchAux oracle retryD (a + 1) r).delays,
        (fetchAux oracle retryD (a + 1) r).requests + 1⟩ := by
  cases ho : oracle a with
  | throws msg =>
    conv_lhs => rw [fetchAux.eq_def]
    simp only [ho]
  | status code =>
    have hc : 500 ≤ code := by
      rw [ho] at h
      simpa [retryable] using h
    conv_lhs => rw [fetchAux.eq_def]
    simp only [ho]
    rw [if_pos hc]

lemma fetch_exhausted (oracle : Nat → FetchOutcome) (retryD a : Nat) :
    fetchAux oracle retryD a 0 = ⟨finalize (oracle a), [], 1⟩ := by
  cases ho : oracle a with
  | throws msg =>
    rw [fetchAux.eq_def]
    simp only [ho]
    simp [finalize]
  | status code =>
    rw [fetchAux.eq_def]
    simp only [ho]
    by_cases hc : 500 ≤ code
    · rw [if_pos hc]
      simp [finalize]
    · rw [if_neg hc]
      simp [finalize]

/-- C4: `fetchWithRetry` issues at most `maxRetries = 3` requests: a
non-retryable first outcome (2xx/4xx response) is returned immediately
with no delay; a retryable outcome (throw or 5xx) below the bound is
retried after `2000 * 2^(n-1)` ms; after the bound the last outcome is
returned or raised. -/
theorem C4_retry_bound (oracle : Nat → FetchOutcome) :
    (fetchWithRetry oracle maxRetries retryDelay 1).requests ≤ 3
    ∧ (retryable (oracle 1) = false →
        fetchWithRetry oracle maxRetries retryDelay 1 = ⟨finalize (oracle 1), [], 1⟩)
    ∧ (retryable (oracle 1) = true → retryable (oracle 2) = false →
        fetchWithRetry oracle maxRetries retryDelay 1 = ⟨finalize (oracle 2), [2000], 2⟩)
    ∧ (retryable (oracle 1) = true → retryable (oracle 2) = true →
        fetchWithRetry oracle maxRetries retryDelay 1 = ⟨finalize (oracle 3), [2000, 4000], 3⟩) := by
  have hconv : fetchWithRetry oracle maxRetries retryDelay 1 = fetchAux oracle 2000 1 2 := rfl
  rw [hconv]
  have case1 : retryable (oracle 1) = false →
      fetchAux oracle 2000 1 2 = ⟨finalize (oracle 1), [], 1⟩ := fun h =>
    fetch_stop oracle 2000 1 2 h
  have case2 : retryable (oracle 1) = true → retryable (oracle 2) = false →
      fetchAux oracle 2000 1 2 = ⟨finalize (oracle 2), [2000], 2⟩ := by
    intro r1 r2
    have e1 : fetchAux oracle 2000 1 2
        = ⟨(fetchAux oracle 2000 2 1).result,
            2000 * 2 ^ (1 - 1) :: (fetchAux oracle 2000 2 1).delays,
            (fetchAux oracle 2000 2 1).requests + 1⟩ := fetch_retry oracle 2000 1 1 r1
    have e2 : fetchAux oracle 2000 2 1 = ⟨finalize (oracle 2), [], 1⟩ :=
      fetch_stop oracle 2000 2 1 r2
    rw [e1, e2]
    rfl
  have case3 : retryable (oracle 1) = true → retryable (oracle 2) = true →
      fetchAux oracle 2000 1 2 = ⟨finalize (oracle 3), [2000, 4000], 3⟩ := by
    intro r1 r2
    have e1 : fetchAux oracle 2000 1 2
        = ⟨(fetchAux oracle 2000 2 1).result,
            2000 * 2 ^ (1 - 1) :: (fetchAux oracle 2000 2 1).delays,
            (fetchAux oracle 2000 2 1).requests + 1⟩ := fetch_retry oracle 2000 1 1 r1
    have e2 : fetchAux oracle 2000 2 1
        = ⟨(fetchAux oracle 2000 3 0).result,
            2000 * 2 ^ (2 - 1) :: (fetchAux oracle 2000 3 0).delays,
            (fetchAux oracle 2000 3 0).requests + 1⟩ := fetch_retry oracle 2000 2 0 r2
    have e3 := fetch_exhausted oracle 2000 3
    rw [e1, e2, e3]
    rfl
  refine ⟨?_, case1, case2, case3⟩
  by_cases r1 : retryable (oracle 1) = true
  · by_cases r2 : retryable (oracle 2) = true
    · rw [case3 r1 r2]
    · rw [case2 r1 (by simpa using r2)]
      simp
  · rw [case1 (by simpa using r1)]
    simp

/-- The specification's retry scenario: 503 on the first two attempts,
then 200. -/
def oracle503 : Nat → FetchOutcome := fun n => if n ≤ 2 then .status 503 else .status 200

/-- Witness for C4: the 503/503/200 remote produces exactly 3 requests,
delays of 2000 ms and 4000 ms, and a final 200 result. -/
theorem C4_retry_bound_witness :
    fetchWithRetry oracle503 maxRetries retryDelay 1 = ⟨.ok 200, [2000, 4000], 3⟩ :=
  (C4_retry_bound oracle503).2.2.2 (by decide) (by decide)

/-! ### SyncManager / DatabaseManager state and the sync operations -/

/-- The mutable fields of the `SyncManager` instance used by the sync
operations (`isSyncing`, `lastSyncHash`, `retryAttempts`). -/
structure SMState where
  isSyncing : Bool
  lastSyncHash : Option String
  retryAttempts : Nat
  deriving DecidableEq, Repr

/-- One entry of the IndexedDB `syncQueue` store: the enqueued operation
(`type`, `data`, `error`) plus the bookkeeping added by `addToSyncQueue`
and `markAsSynced`. -/
structure PendingOp where
  id : Nat
  type : String
  data : Snapshot
  error : String
  timestamp : Int
  synced : Bool
  syncedAt : Option Int
  deriving DecidableEq, Repr

/-- The `DatabaseManager` collaborator as the sync subsystem sees it: the
readiness flag, the auto-increment counter of the `syncQueue` store and
its contents. -/
structure DBState where
  isReady : Bool
  nextId : Nat
  queue : List PendingOp
  deriving DecidableEq, Repr

/-- Ambient inputs of one sync call: the document held by the remote store
(returned by a successful GET), the per-attempt transport outcomes of the
GET and the PUT, the clock (ISO string and epoch ms) and
`navigator.userAgent`. -/
structure Env where
  cloudData : Snapshot
  getOutcome : Nat → FetchOutcome
  putOutcome : Nat → FetchOutcome
  nowIso : String
  nowMs : Int
  userAgent : String

/-- `response.ok`: status in the 200–299 range. -/
def isOk (code : Nat) : Bool := decide (200 ≤ code) && decide (code < 300)

/-- The message of the error thrown on a non-ok response
(`HTTP ${status}: ${statusText}`, with the status text abstracted away). -/
def httpError (code : Nat) : String := "HTTP " ++ toString code

inductive LoadOutcome
  | ok (data : Snapshot)
  | failed (msg : String)
  deriving DecidableEq, Repr

structure LoadOut where
  outcome : LoadOutcome
  st : SMState
  getRequests : Nat
  deriving DecidableEq, Repr

/-- `SyncManager.loadFromCloud`: GET the latest document with retry; on an
ok response record its hash in `lastSyncHash` and return the data; a
non-ok response or a transport failure after retries is re-thrown. -/
def loadFromCloud (env : Env) (st : SMState) : LoadOut :=
  let f := fetchWithRetry env.getOutcome maxRetries retryDelay 1
  match f.result with
  | .ok code =>
      if isOk code then
        ⟨.ok env.cloudData, { st with lastSyncHash := some (hashData env.cloudData) }, f.requests⟩
      else ⟨.failed (httpError code), st, f.requests⟩
  | .error msg => ⟨.failed msg, st, f.requests⟩

inductive SaveOutcome
  | saved
  | skipped
  | failed (msg : String)
  deriving DecidableEq, Repr

structure SaveOut where
  outcome : SaveOutcome
  st : SMState
  db : DBState
  puts : List Snapshot
  deriving DecidableEq, Repr

/-- The payload built by `saveToCloud`: the given data spread into a new
object with a fresh `_meta` block (`lastSync` = now, `version` `"1.0.0"`,
`device` = the first 50 characters of the user agent). -/
def withMeta (data : Snapshot) (nowIso ua : String) : Snapshot :=
  { data with meta := some ⟨some nowIso, "1.0.0", ua.take 50⟩ }

/-- `DatabaseManager.addToSyncQueue`: append the operation with a creation
timestamp and `synced = false` under a fresh auto-increment id. -/
def addToSyncQueue (db : DBState) (ty : String) (data : Snapshot) (err : String)
    (nowMs : Int) : DBState :=
  ⟨db.isReady, db.nextId + 1,
    db.queue ++ [⟨db.nextId, ty, data, err, nowMs, false, none⟩]⟩

/-- `SyncManager.saveToCloud`: return `false` immediately when `isSyncing`
is already set; otherwise set `isSyncing`, PUT the payload with retry, on
success record the hash of the original data and reset `retryAttempts`,
and on failure enqueue a pending `save` operation (when the store is
ready) and re-throw; `isSyncing` is cleared in the `finally`. -/
def saveToCloud (env : Env) (st : SMState) (db : DBState) (data : Snapshot) : SaveOut :=
  if st.isSyncing then ⟨.skipped, st, db, []⟩
  else
    let st1 : SMState := { st with isSyncing := true }
    let payload := withMeta data env.nowIso env.userAgent
    let f := fetchWithRetry env.putOutcome maxRetries retryDelay 1
    let puts := List.replicate f.requests payload
    match f.result with
    | .ok code =>
        if isOk code then
          let st2 : SMState :=
            { st1 with isSyncing := false, lastSyncHash := some (hashData data), retryAttempts := 0 }
          ⟨.saved, st2, db, puts⟩
        else
          let msg := httpError code
          let db2 := if db.isReady then addToSyncQueue db "save" data msg env.nowMs else db
          ⟨.failed msg, { st1 with isSyncing := false }, db2, puts⟩
    | .error msg =>
        let db2 := if db.isReady then addToSyncQueue db "save" data msg env.nowMs else db
        ⟨.failed msg, { st1 with isSyncing := false }, db2, puts⟩

/-- The structured result object of `syncData`. -/
inductive SyncResult
  | alreadySyncing
  | noChanges
  | uploaded
  | downloaded (data : Snapshot)
  | merged (data : Snapshot)
  | syncError (msg : String)
  deriving DecidableEq, Repr

/-- Value of `data._meta?.lastSync || 0`: the number 0 when the block or
the field is absent (or the string is empty, which is falsy in JS), else
the ISO timestamp string. -/
inductive TSVal
  | num (n : Int)
  | str (s : String)
  deriving DecidableEq, Repr

def lastSyncVal (s : Snapshot) : TSVal :=
  match s.meta with
  | none => .num 0
  | some m =>
      match m.lastSync with
      | none => .num 0
      | some t => if t = "" then .num 0 else .str t

/-- Lexicographic strict comparison of UTF-16 code-unit sequences: the JS
relational comparison of two strings. -/
def unitsLt : List Nat → List Nat → Bool
  | [], [] => false
  | [], _ :: _ => true
  | _ :: _, [] => false
  | a :: as, b :: bs =>
      if a < b then true else if b < a then false else unitsLt as bs

def jsStrLt (a b : String) : Bool := unitsLt (stringUnits a) (stringUnits b)

/-- The JS `>` comparison on the two timestamp values: two strings compare
lexicographically by code unit (which orders ISO timestamps
chronologically); comparing an ISO timestamp string against the number 0
coerces the non-numeric string to NaN, making the comparison false. -/
def tsGt : TSVal → TSVal → Bool
  | .num a, .num b => decide (b < a)
  | .str a, .str b => jsStrLt b a
  | _, _ => false

structure SyncOut where
  result : SyncResult
  st : SMState
  db : DBState
  getRequests : Nat
  puts : List Snapshot
  deriving DecidableEq, Repr

/-- `SyncManager.syncData(localData)`: fail fast when already syncing;
otherwise set `isSyncing`, load the cloud document, short-circuit on equal
hashes, compare `_meta.lastSync` timestamps and upload / download / merge;
`isSyncing` is cleared in the `finally`, and a thrown error is returned as
a `success:false` result. -/
def syncData (env : Env) (st : SMState) (db : DBState) (localData : Snapshot) : SyncOut :=
  if st.isSyncing then ⟨.alreadySyncing, st, db, 0, []⟩
  else
    let st1 : SMState := { st with isSyncing := true }
    let lo := loadFromCloud env st1
    match lo.outcome with
    | .failed msg => ⟨.syncError msg, { lo.st with isSyncing := false }, db, lo.getRequests, []⟩
    | .ok cloudData =>
        if hashData localData = hashData cloudData then
          ⟨.noChanges, { lo.st with isSyncing := false }, db, lo.getRequests, []⟩
        else
          let lts := lastSyncVal localData
          let cts := lastSyncVal cloudData
          if tsGt lts cts then
            let sv := saveToCloud env lo.st db localData
            match sv.outcome with
            | .failed msg =>
                ⟨.syncError msg, { sv.st with isSyncing := false }, sv.db, lo.getRequests, sv.puts⟩
            | _ => ⟨.uploaded, { sv.st with isSyncing := false }, sv.db, lo.getRequests, sv.puts⟩
          else if tsGt cts lts then
            ⟨.downloaded cloudData, { lo.st with isSyncing := false }, db, lo.getRequests, []⟩
          else
            let m := mergeData localData cloudData
            let sv := saveToCloud env lo.st db m
            match sv.outcome with
            | .failed msg =>
                ⟨.syncError msg, { sv.st with isSyncing := false }, sv.db, lo.getRequests, sv.puts⟩
            | _ => ⟨.merged m, { sv.st with isSyncing := false }, sv.db, lo.getRequests, sv.puts⟩

/-- C2: a `syncData` call finding `isSyncing` already true returns the
`already_syncing` failure result with no network request, no PUT and no
state or queue change; otherwise `isSyncing` is set for the duration of
the attempt (the embedded call threads `st1` with `isSyncing := true`
through every step) and is false again on every exit path. -/
theorem C2_single_flight (env : Env) (st : SMState) (db : DBState) (d : Snapshot) :
    (st.isSyncing = true → syncData env st db d = ⟨.alreadySyncing, st, db, 0, []⟩)
    ∧ (st.isSyncing = false → (syncData env st db d).st.isSyncing = false) := by
  constructor
  · intro h
    simp [syncData, h]
  · intro h
    have hn : ¬ (st.isSyncing = true) := by simp [h]
    simp only [syncData]
    rw [if_neg hn]
    repeat' split
    all_goals rfl

/-- Concrete snapshots: the local one carries the strictly newer
`_meta.lastSync` (ISO timestamps abbreviated so that the kernel can
evaluate the hashes; only their ordering matters). -/
def localSnapC1 : Snapshot :=
  ⟨none, none, none, some 100, some ⟨some "2", "1", "a"⟩⟩

def cloudSnapC1 : Snapshot :=
  ⟨none, none, none, some 50, some ⟨some "1", "1", "a"⟩⟩

/-- A fresh `SyncManager` state (`isSyncing = false`). -/
def st0 : SMState := ⟨false, none, 0⟩

/-- A `SyncManager` state with a sync already in flight. -/
def stBusy : SMState := ⟨true, none, 0⟩

/-- A ready database with an empty sync queue. -/
def db0 : DBState := ⟨true, 1, []⟩

/-- An environment whose GET and PUT transports always answer 200. -/
def envOk : Env :=
  { cloudData := cloudSnapC1
  , getOutcome := fun _ => .status 200
  , putOutcome := fun _ => .status 200
  , nowIso := "2025-01-03T00:00:00.000Z"
  , nowMs := 1735862400000
  , userAgent := "agent" }

/-- Witness for C2 at a concrete busy state and at a concrete fresh state. -/
theorem C2_single_flight_witness :
    syncData envOk stBusy db0 localSnapC1 = ⟨.alreadySyncing, stBusy, db0, 0, []⟩
    ∧ (syncData envOk st0 db0 localSnapC1).st.isSyncing = false :=
  ⟨(C2_single_flight envOk stBusy db0 localSnapC1).1 rfl,
    (C2_single_flight envOk st0 db0 localSnapC1).2 rfl⟩

set_option maxRecDepth 40000 in
/-- C1 (code bug): with differing fingerprints and a strictly newer local
`_meta.lastSync`, `syncData` reports `{success:true, action:'uploaded'}`
but transmits nothing: it has already set `isSyncing`, so the
`saveToCloud` it awaits hits its own `if (this.isSyncing) return false`
guard and skips the PUT silently.  Evaluated here at a concrete input:
the result is `uploaded` and the list of PUT payloads is empty. -/
theorem C1_upload_never_transmits :
    (syncData envOk st0 db0 localSnapC1).result = .uploaded
    ∧ (syncData envOk st0 db0 localSnapC1).puts = [] := by
  constructor <;> rfl

lemma fetch_requests_pos (oracle : Nat → FetchOutcome) (retryD a rem : Nat) :
    1 ≤ (fetchAux oracle retryD a rem).requests := by
  cases ho : oracle a with
  | throws msg =>
    cases rem with
    | zero =>
      rw [fetchAux.eq_def]
      simp only [ho]
      exact Nat.le_refl 1
    | succ n =>
      rw [fetchAux.eq_def]
      simp only [ho]
      show 1 ≤ (fetchAux oracle retryD (a + 1) n).requests + 1
      omega
  | status code =>
    by_cases hc : 500 ≤ code
    · cases rem with
      | zero =>
        rw [fetchAux.eq_def]
        simp only [ho]
        rw [if_pos hc]
      | succ n =>
        rw [fetchAux.eq_def]
        simp only [ho]
        rw [if_pos hc]
        show 1 ≤ (fetchAux oracle retryD (a + 1) n).requests + 1
        omega
    · rw [fetchAux.eq_def]
      simp only [ho]
      rw [if_neg hc]

lemma saveToCloud_puts_replicate (env : Env) (st : SMState) (db : DBState) (d : Snapshot)
    (h : st.isSyncing = false) :
    (saveToCloud env st db d).puts
      = List.replicate (fetchWithRetry env.putOutcome maxRetries retryDelay 1).requests
          (withMeta d env.nowIso env.userAgent) := by
  have hn : ¬ (st.isSyncing = true) := by simp [h]
  simp only [saveToCloud]
  rw [if_neg hn]
  repeat' split
  all_goals rfl

lemma saveToCloud_puts_all (env : Env) (st : SMState) (db : DBState) (d : Snapshot) :
    ∀ p ∈ (saveToCloud env st db d).puts, p = withMeta d env.nowIso env.userAgent := by
  by_cases h : st.isSyncing = true
  · simp [saveToCloud, h]
  · intro p hp
    rw [saveToCloud_puts_replicate env st db d (by simpa using h)] at hp
    exact List.eq_of_mem_replicate hp

/-- C9: when not skipped, `saveToCloud` transmits at least one PUT, and
every transmitted payload equals the given snapshot with all data fields
unchanged and a fresh `_meta` block (`lastSync` = now, version `"1.0.0"`,
device = the first 50 characters of the user agent); the caller's
snapshot itself is not modified (the payload is a new object built by
spreading). -/
theorem C9_payload (env : Env) (st : SMState) (db : DBState) (d : Snapshot)
    (h : st.isSyncing = false) :
    (saveToCloud env st db d).puts ≠ []
    ∧ ∀ p ∈ (saveToCloud env st db d).puts,
        p.manualTransactions = d.manualTransactions
        ∧ p.activeLoans = d.activeLoans
        ∧ p.futureIncomes = d.futureIncomes
        ∧ p.currentBalance = d.currentBalance
        ∧ p.meta = some ⟨some env.nowIso, "1.0.0", env.userAgent.take 50⟩ := by
  constructor
  · rw [saveToCloud_puts_replicate env st db d h]
    have hpos : 1 ≤ (fetchWithRetry env.putOutcome maxRetries retryDelay 1).requests :=
      fetch_requests_pos env.putOutcome retryDelay 1 (maxRetries - 1)
    intro hnil
    rw [List.replicate_eq_nil_iff] at hnil
    omega
  · intro p hp
    have hp' := saveToCloud_puts_all env st db d p hp
    subst hp'
    exact ⟨rfl, rfl, rfl, rfl, rfl⟩

/-- Witness for C9: a concrete non-skipped save transmits a payload. -/
theorem C9_payload_witness :
    (saveToCloud envOk st0 db0 localSnapC1).puts ≠ [] :=
  (C9_payload envOk st0 db0 localSnapC1 rfl).1

/-- C8: when a non-skipped `saveToCloud` fails after retries are exhausted
and the queue store is ready, exactly one new pending operation is
appended, carrying type `save`, the snapshot that failed, the raised
error message, a creation timestamp and `synced = false`, and the error
is re-raised to the caller (the `.failed msg` outcome). -/
theorem C8_failed_save_enqueues (env : Env) (st : SMState) (db : DBState)
    (d : Snapshot) (msg : String)
    (h1 : st.isSyncing = false) (h2 : db.isReady = true)
    (hf : (saveToCloud env st db d).outcome = .failed msg) :
    (saveToCloud env st db d).db.queue
      = db.queue ++ [⟨db.nextId, "save", d, msg, env.nowMs, false, none⟩]
    ∧ (saveToCloud env st db d).db.nextId = db.nextId + 1 := by
  have hn : ¬ (st.isSyncing = true) := by simp [h1]
  cases hr : (fetchWithRetry env.putOutcome maxRetries retryDelay 1).result with
  | ok code =>
    cases hok : isOk code with
    | true =>
      have hs : (saveToCloud env st db d).outcome = .saved := by
        simp [saveToCloud, hn, hr, hok]
      rw [hs] at hf
      cases hf
    | false =>
      have hs : saveToCloud env st db d =
          ⟨.failed (httpError code), { st with isSyncing := false },
            addToSyncQueue db "save" d (httpError code) env.nowMs,
            List.replicate (fetchWithRetry env.putOutcome maxRetries retryDelay 1).requests
              (withMeta d env.nowIso env.userAgent)⟩ := by
        simp [saveToCloud, hn, hr, hok, h2]
      rw [hs] at hf ⊢
      cases hf
      simp [addToSyncQueue]
  | error m =>
    have hs : saveToCloud env st db d =
        ⟨.failed m, { st with isSyncing := false },
          addToSyncQueue db "save" d m env.nowMs,
          List.replicate (fetchWithRetry env.putOutcome maxRetries retryDelay 1).requests
            (withMeta d env.nowIso env.userAgent)⟩ := by
      simp [saveToCloud, hn, hr, h2]
    rw [hs] at hf ⊢
    cases hf
    simp [addToSyncQueue]

/-- An environment whose PUT transport always throws. -/
def envPutFails : Env :=
  { cloudData := cloudSnapC1
  , getOutcome := fun _ => .status 200
  , putOutcome := fun _ => .throws "network down"
  , nowIso := "2025-01-03T00:00:00.000Z"
  , nowMs := 1735862400000
  , userAgent := "agent" }

/-- Witness for C8: a concrete failed save appends exactly the expected
pending operation. -/
theorem C8_failed_save_enqueues_witness :
    (saveToCloud envPutFails st0 db0 localSnapC1).db.queue
      = db0.queue ++ [⟨db0.nextId, "save", localSnapC1, "network down",
          envPutFails.nowMs, false, none⟩]
    ∧ (saveToCloud envPutFails st0 db0 localSnapC1).db.nextId = db0.nextId + 1 :=
  C8_failed_save_enqueues envPutFails st0 db0 localSnapC1 "network down" rfl rfl (by rfl)

/-! ### The pending-operation queue (`processSyncQueue`) -/

/-- `DatabaseManager.markAsSynced`: set `synced` and `syncedAt` on the
entry with the given id (the store keys its entries by `id`). -/
def markAsSynced (db : DBState) (i : Nat) (nowMs : Int) : DBState :=
  { db with queue := db.queue.map fun op =>
      if op.id = i then { op with synced := true, syncedAt := some nowMs } else op }

/-- `DatabaseManager.getPendingSyncOperations`: all entries with
`synced = false`. -/
def getPendingSyncOperations (db : DBState) : List PendingOp :=
  db.queue.filter fun op => !op.synced

/-- `DatabaseManager.clearSyncedOperations`: delete every entry with
`synced = true`. -/
def clearSyncedOperations (db : DBState) : DBState :=
  { db with queue := db.queue.filter fun op => !op.synced }

/-- Accumulated state of the `processSyncQueue` loop. -/
structure QAcc where
  st : SMState
  db : DBState
  puts : List Snapshot
  deriving Repr

/-- One iteration of the `for` loop in `processSyncQueue`: a `save`
operation first replays `saveToCloud` (a throw skips the marking, is
logged and the loop moves on); every operation whose `try` block reaches
its end is marked synced. -/
def processOp (env : Env) (acc : QAcc) (op : PendingOp) : QAcc :=
  if op.type = "save" then
    let sv := saveToCloud env acc.st acc.db op.data
    match sv.outcome with
    | .failed _ => ⟨sv.st, sv.db, acc.puts ++ sv.puts⟩
    | _ => ⟨sv.st, markAsSynced sv.db op.id env.nowMs, acc.puts ++ sv.puts⟩
  else ⟨acc.st, markAsSynced acc.db op.id env.nowMs, acc.puts⟩

/-- `SyncManager.processSyncQueue`: return early when the store is not
ready or nothing is pending; otherwise replay the pending list (fetched
once), then sweep the synced entries. -/
def processSyncQueue (env : Env) (st : SMState) (db : DBState) : QAcc :=
  if db.isReady = false then ⟨st, db, []⟩
  else
    let pending := getPendingSyncOperations db
    if pending.isEmpty then ⟨st, db, []⟩
    else
      let acc := pending.foldl (processOp env) ⟨st, db, []⟩
      ⟨acc.st, clearSyncedOperations acc.db, acc.puts⟩

/-- Every queue entry carrying the given id is marked synced. -/
def allSyncedAt (db : DBState) (i : Nat) : Prop :=
  ∀ q ∈ db.queue, q.id = i → q.synced = true

lemma markAsSynced_sets (db : DBState) (i : Nat) (nowMs : Int) :
    allSyncedAt (markAsSynced db i nowMs) i := by
  intro q hq hid
  simp only [markAsSynced, List.mem_map] at hq
  obtain ⟨q0, hq0, rfl⟩ := hq
  by_cases h : q0.id = i
  · simp [h]
  · simp only [if_neg h] at hid
    exact absurd hid h

lemma markAsSynced_preserves (db : DBState) (i j : Nat) (nowMs : Int)
    (hP : allSyncedAt db j) : allSyncedAt (markAsSynced db i nowMs) j := by
  intro q hq hid
  simp only [markAsSynced, List.mem_map] at hq
  obtain ⟨q0, hq0, rfl⟩ := hq
  by_cases h : q0.id = i
  · simp [h]
  · simp only [if_neg h] at hid ⊢
    exact hP q0 hq0 hid

lemma markAsSynced_nextId (db : DBState) (i : Nat) (nowMs : Int) :
    (markAsSynced db i nowMs).nextId = db.nextId := rfl

/-- The only queue effect of one `saveToCloud` call: either the store is
untouched, or exactly one failed-save operation is appended. -/
lemma saveToCloud_db_spec (env : Env) (st : SMState) (db : DBState) (d : Snapshot) :
    ((saveToCloud env st db d).db = db)
    ∨ (∃ msg, (saveToCloud env st db d).db = addToSyncQueue db "save" d msg env.nowMs) := by
  by_cases h : st.isSyncing = true
  · exact Or.inl (by simp [saveToCloud, h])
  · cases hr : (fetchWithRetry env.putOutcome maxRetries retryDelay 1).result with
    | ok code =>
      cases hok : isOk code with
      | true => exact Or.inl (by simp [saveToCloud, h, hr, hok])
      | false =>
        by_cases hrdy : db.isReady = true
        · exact Or.inr ⟨httpError code, by simp [saveToCloud, h, hr, hok, hrdy]⟩
        · exact Or.inl (by simp [saveToCloud, h, hr, hok, hrdy])
    | error m =>
      by_cases hrdy : db.isReady = true
      · exact Or.inr ⟨m, by simp [saveToCloud, h, hr, hrdy]⟩
      · exact Or.inl (by simp [saveToCloud, h, hr, hrdy])

lemma saveToCloud_nextId_mono (env : Env) (st : SMState) (db : DBState) (d : Snapshot) :
    db.nextId ≤ (saveToCloud env st db d).db.nextId := by
  rcases saveToCloud_db_spec env st db d with h | ⟨msg, h⟩ <;>
    simp [h, addToSyncQueue]

lemma saveToCloud_preserves_synced (env : Env) (st : SMState) (db : DBState)
    (d : Snapshot) (j : Nat) (hj : j < db.nextId) (hP : allSyncedAt db j) :
    allSyncedAt (saveToCloud env st db d).db j := by
  rcases saveToCloud_db_spec env st db d with h | ⟨msg, h⟩ <;> rw [h]
  · exact hP
  · intro q hq hid
    simp only [addToSyncQueue, List.mem_append, List.mem_singleton] at hq
    rcases hq with hq | rfl
    · exact hP q hq hid
    · simp only at hid
      omega

lemma processOp_nextId_mono (env : Env) (acc : QAcc) (op : PendingOp) :
    acc.db.nextId ≤ (processOp env acc op).db.nextId := by
  by_cases h : op.type = "save"
  · simp only [processOp, if_pos h]
    cases ho : (saveToCloud env acc.st acc.db op.data).outcome with
    | failed m =>
      simp only [ho]
      exact saveToCloud_nextId_mono env acc.st acc.db op.data
    | saved =>
      simp only [ho, markAsSynced_nextId]
      exact saveToCloud_nextId_mono env acc.st acc.db op.data
    | skipped =>
      simp only [ho, markAsSynced_nextId]
      exact saveToCloud_nextId_mono env acc.st acc.db op.data
  · simp only [processOp, if_neg h, markAsSynced_nextId]
    exact Nat.le_refl _

lemma processOp_preserves (env : Env) (acc : QAcc) (op : PendingOp) (j : Nat)
    (hj : j < acc.db.nextId) (hP : allSyncedAt acc.db j) :
    j < (processOp env acc op).db.nextId ∧ allSyncedAt (processOp env acc op).db j := by
  refine ⟨lt_of_lt_of_le hj (processOp_nextId_mono env acc op), ?_⟩
  by_cases h : op.type = "save"
  · simp only [processOp, if_pos h]
    cases ho : (saveToCloud env acc.st acc.db op.data).outcome with
    | failed m =>
      simp only [ho]
      exact saveToCloud_preserves_synced env acc.st acc.db op.data j hj hP
    | saved =>
      simp only [ho]
      exact markAsSynced_preserves _ _ _ _
        (saveToCloud_preserves_synced env acc.st acc.db op.data j hj hP)
    | skipped =>
      simp only [ho]
      exact markAsSynced_preserves _ _ _ _
        (saveToCloud_preserves_synced env acc.st acc.db op.data j hj hP)
  · simp only [processOp, if_neg h]
    exact markAsSynced_preserves _ _ _ _ hP

lemma processOp_establishes (env : Env) (acc : QAcc) (op : PendingOp)
    (hop : op.type ≠ "save") : allSyncedAt (processOp env acc op).db op.id := by
  simp only [processOp, if_neg hop]
  exact markAsSynced_sets _ _ _

lemma foldl_processOp_nextId_mono (env : Env) (l : List PendingOp) (acc : QAcc) :
    acc.db.nextId ≤ (l.foldl (processOp env) acc).db.nextId := by
  induction l generalizing acc with
  | nil => exact Nat.le_refl _
  | cons op t ih => exact Nat.le_trans (processOp_nextId_mono env acc op) (ih _)

lemma foldl_processOp_preserves (env : Env) (l : List PendingOp) (acc : QAcc) (j : Nat)
    (hj : j < acc.db.nextId) (hP : allSyncedAt acc.db j) :
    allSyncedAt ((l.foldl (processOp env) acc)).db j := by
  induction l generalizing acc with
  | nil => exact hP
  | cons op t ih =>
    obtain ⟨hj', hP'⟩ := processOp_preserves env acc op j hj hP
    exact ih _ hj' hP'

/-- Every accumulated PUT payload stems from a pending `save` operation. -/
def putsFrom (env : Env) (pend : List PendingOp) (acc : QAcc) : Prop :=
  ∀ p ∈ acc.puts, ∃ op ∈ pend, op.type = "save"
    ∧ p = withMeta op.data env.nowIso env.userAgent

lemma processOp_puts (env : Env) (acc : QAcc) (op : PendingOp) (pend : List PendingOp)
    (hop : op ∈ pend) (hR : putsFrom env pend acc) :
    putsFrom env pend (processOp env acc op) := by
  by_cases h : op.type = "save"
  · simp only [processOp, if_pos h]
    cases ho : (saveToCloud env acc.st acc.db op.data).outcome with
    | failed m =>
      simp only [ho]
      intro p hp
      rcases List.mem_append.mp hp with hp | hp
      · exact hR p hp
      · exact ⟨op, hop, h, saveToCloud_puts_all env acc.st acc.db op.data p hp⟩
    | saved =>
      simp only [ho]
      intro p hp
      rcases List.mem_append.mp hp with hp | hp
      · exact hR p hp
      · exact ⟨op, hop, h, saveToCloud_puts_all env acc.st acc.db op.data p hp⟩
    | skipped =>
      simp only [ho]
      intro p hp
      rcases List.mem_append.mp hp with hp | hp
      · exact hR p hp
      · exact ⟨op, hop, h, saveToCloud_puts_all env acc.st acc.db op.data p hp⟩
  · simp only [processOp, if_neg h]
    exact hR

lemma foldl_processOp_puts (env : Env) (pend l : List PendingOp)
    (hl : ∀ op ∈ l, op ∈ pend) (acc : QAcc) (hR : putsFrom env pend acc) :
    putsFrom env pend (l.foldl (processOp env) acc) := by
  induction l generalizing acc with
  | nil => exact hR
  | cons op t ih =>
    exact ih (fun o ho => hl o (List.mem_cons_of_mem _ ho)) _
      (processOp_puts env acc op pend (hl op (List.mem_cons_self _ _)) hR)

/-- C10: during `processSyncQueue` (with the store ready and queue ids
below the auto-increment counter), every pending operation whose type is
not `save` is marked synced and therefore deleted by the final sweep — no
entry with its id survives — and every PUT performed during the drain
stems from a pending operation of type `save` (non-save operations
trigger no remote call). -/
theorem C10_queue_drain (env : Env) (st : SMState) (db : DBState)
    (hready : db.isReady = true)
    (hbound : ∀ op ∈ db.queue, op.id < db.nextId) :
    (∀ op ∈ getPendingSyncOperations db, op.type ≠ "save" →
        ∀ q ∈ (processSyncQueue env st db).db.queue, q.id ≠ op.id)
    ∧ (∀ p ∈ (processSyncQueue env st db).puts,
        ∃ op ∈ getPendingSyncOperations db, op.type = "save"
          ∧ p = withMeta op.data env.nowIso env.userAgent) := by
  have hnr : ¬ (db.isReady = false) := by simp [hready]
  by_cases hemp : (getPendingSyncOperations db).isEmpty = true
  · have hq : processSyncQueue env st db = ⟨st, db, []⟩ := by
      simp [processSyncQueue, hnr, hemp]
    rw [hq]
    constructor
    · intro op hop
      rw [List.isEmpty_iff] at hemp
      rw [hemp] at hop
      cases hop
    · intro p hp
      cases hp
  · have hq : processSyncQueue env st db =
        ⟨((getPendingSyncOperations db).foldl (processOp env) ⟨st, db, []⟩).st,
          clearSyncedOperations
            ((getPendingSyncOperations db).foldl (processOp env) ⟨st, db, []⟩).db,
          ((getPendingSyncOperations db).foldl (processOp env) ⟨st, db, []⟩).puts⟩ := by
      simp [processSyncQueue, hnr, hemp]
    rw [hq]
    constructor
    · intro op hop hnsave q hqmem hqeq
      obtain ⟨s, t, hst⟩ := List.append_of_mem hop
      have hfold : (getPendingSyncOperations db).foldl (processOp env) ⟨st, db, []⟩
          = t.foldl (processOp env)
              (processOp env (s.foldl (processOp env) ⟨st, db, []⟩) op) := by
        rw [hst, List.foldl_append, List.foldl_cons]
      have hop_in_queue : op ∈ db.queue := List.mem_of_mem_filter hop
      have hid0 : op.id < db.nextId := hbound op hop_in_queue
      have hid1 : op.id < (s.foldl (processOp env) (⟨st, db, []⟩ : QAcc)).db.nextId :=
        lt_of_lt_of_le hid0 (foldl_processOp_nextId_mono env s ⟨st, db, []⟩)
      have hest : allSyncedAt
          (processOp env (s.foldl (processOp env) ⟨st, db, []⟩) op).db op.id :=
        processOp_establishes env _ op hnsave
      have hid2 : op.id <
          (processOp env (s.foldl (processOp env) ⟨st, db, []⟩) op).db.nextId :=
        lt_of_lt_of_le hid1 (processOp_nextId_mono env _ op)
      have hfinal : allSyncedAt
          ((t.foldl (processOp env)
            (processOp env (s.foldl (processOp env) ⟨st, db, []⟩) op))).db op.id :=
        foldl_processOp_preserves env t _ op.id hid2 hest
      rw [hfold] at hqmem
      simp only [clearSyncedOperations, List.mem_filter] at hqmem
      have hsy := hfinal q hqmem.1 hqeq
      rw [hsy] at hqmem
      simp at hqmem
    · intro p hp
      exact foldl_processOp_puts env (getPendingSyncOperations db)
        (getPendingSyncOperations db) (fun o ho => ho) ⟨st, db, []⟩
        (by intro p hp; cases hp) p hp

/-- One non-save and one save pending operation under distinct ids. -/
def opOther : PendingOp := ⟨1, "delete", sampleSnap, "", 0, false, none⟩

def opSave : PendingOp := ⟨2, "save", sampleSnap, "e", 0, false, none⟩

def dbW : DBState := ⟨true, 3, [opOther, opSave]⟩

set_option maxRecDepth 40000 in
/-- Witness for C10 at a concrete two-element queue: the non-save
operation is gone after the drain, and the PUT payload performed stems
from the save operation. -/
theorem C10_queue_drain_witness :
    (∀ q ∈ (processSyncQueue envOk st0 dbW).db.queue, q.id ≠ opOther.id)
    ∧ (∃ op ∈ getPendingSyncOperations dbW, op.type = "save"
        ∧ withMeta opSave.data envOk.nowIso envOk.userAgent
            = withMeta op.data envOk.nowIso envOk.userAgent) :=
  ⟨(C10_queue_drain envOk st0 dbW rfl (by decide)).1 opOther (by decide) (by decide),
    (C10_queue_drain envOk st0 dbW rfl (by decide)).2
      (withMeta opSave.data envOk.nowIso envOk.userAgent) (by decide)⟩

end FinSync
